import Mathlib

/-!
Verification of the layout and rendering core of the Rust-Browser repository
(src/src/main.rs), via a shallow embedding into Lean 4.

Modelling conventions:
* Rust `u32` values are embedded as `Nat`.  Where unsigned wrap-around is
  relevant to a property (the scroll arithmetic of `Browser::scrolldown` and
  `Browser::reset_scroll`, src/src/main.rs:230-248), subtraction and addition
  are taken modulo `2 ^ 32`, matching release-build semantics; a debug build
  panics at exactly the same inputs.  The layout cursor arithmetic, whose
  values stay far below `2 ^ 32` at the program's window sizes, is embedded
  as plain `Nat` arithmetic.
* `f32` font metrics are idealised as exact rationals `ℚ`; the Rust cast
  `as u32` (truncation toward zero, saturating at `0` for negative values)
  is embedded as `px q = q.floor.toNat`.  The literal `1.2` of the source
  (src/src/main.rs:508) is modelled as the exact rational `6 / 5`.
* Text shaping (`rustybuzz::shape`) and the font metrics derived from the
  loaded font data are external collaborators (spec section 1); they enter
  the embedding as parameters `shape` and `metrics`, keyed by the
  `FontProperties` that determine which font data a cached handle points to.
* Panics are modelled by `Option`: a function that can hit an out-of-bounds
  index returns `none` there.
-/

set_option maxRecDepth 1000000

namespace RustBrowser

/-- `const VSTEP: u32 = 40` (src/src/main.rs:27). -/
def VSTEP : Nat := 40

/-- `const HSTEP: u32 = 40` (src/src/main.rs:28). -/
def HSTEP : Nat := 40

/-- Wrapping `u32` addition, the release-build semantics of `a + b`. -/
def u32add (a b : Nat) : Nat := (a + b) % 2 ^ 32

/-- Wrapping `u32` subtraction, the release-build semantics of `a - b`;
a debug build panics when `b > a`. -/
def u32sub (a b : Nat) : Nat := (a + 2 ^ 32 - b % 2 ^ 32) % 2 ^ 32

/-- Reinterpret a `u32` value as an `i32` (the `as i32` cast of the source). -/
def toI32 (n : Nat) : Int :=
  if n % 2 ^ 32 < 2 ^ 31 then (n % 2 ^ 32 : Int) else (n % 2 ^ 32 : Int) - 2 ^ 32

/-- The Rust cast `as u32` applied to a float value, idealised over `ℚ`:
truncation toward zero for nonnegative values, saturating at `0` below. -/
def px (q : ℚ) : Nat := q.floor.toNat

/-- `enum Token` (src/src/main.rs:423-427). -/
inductive Token where
  | Tag : String → Token
  | Text : String → Token
deriving DecidableEq

/-- The character-scanning loop of `Browser::lex` (src/src/main.rs:203-228),
with the remaining input, the accumulated buffer and the `in_tag` flag as
explicit state.  On `<` the text buffer is flushed (if non-empty) and tag
mode is entered; on `>` the buffer is emitted as a `Tag` token
unconditionally; at end of input a non-empty buffer is emitted as `Text`
only when not inside a tag. -/
def lexAux : List Char → List Char → Bool → List Token
  | [], buf, in_tag =>
      if in_tag = false ∧ buf ≠ [] then [Token.Text ⟨buf⟩] else []
  | c :: cs, buf, in_tag =>
      if c = '<' then
        (if buf ≠ [] then [Token.Text ⟨buf⟩] else []) ++ lexAux cs [] true
      else if c = '>' then
        Token.Tag ⟨buf⟩ :: lexAux cs [] false
      else
        lexAux cs (buf ++ [c]) in_tag

/-- `Browser::lex` (src/src/main.rs:203-228); `self` is unused in the source. -/
def Browser.lex (body : String) : List Token := lexAux body.data [] false

/-- Balanced tag brackets, scanned with the same `in_tag` flag as the
tokenizer: a `<` may occur only outside a tag, a `>` only inside one, and
the input must end outside a tag. -/
def balancedAux : List Char → Bool → Bool
  | [], in_tag => !in_tag
  | c :: cs, in_tag =>
      if c = '<' then !in_tag && balancedAux cs true
      else if c = '>' then in_tag && balancedAux cs false
      else balancedAux cs in_tag

/-- A markup string in which every `<` is later matched by a `>` and every
`>` is preceded by a matching `<`. -/
def balanced (s : String) : Bool := balancedAux s.data false

/-- Modelled from the spec: the input with every `<...>` tag span removed
(spec section 8, tokenizer round-trip).  Characters outside tags are kept,
characters from a `<` through the matching `>` are dropped. -/
def stripAux : List Char → Bool → List Char
  | [], _ => []
  | c :: cs, in_tag =>
      if c = '<' then stripAux cs true
      else if c = '>' then stripAux cs false
      else if in_tag then stripAux cs in_tag
      else c :: stripAux cs in_tag

/-- Modelled from the spec: `stripTags` over a whole string. -/
def stripTags (s : String) : String := ⟨stripAux s.data false⟩

/-- The concatenated content of all `Text` tokens of a token list. -/
def textContent : List Token → List Char
  | [] => []
  | Token.Text s :: ts => s.data ++ textContent ts
  | Token.Tag _ :: ts => textContent ts

/-- `enum FontWeight` (src/src/main.rs:317-321). -/
inductive FontWeight where
  | Normal
  | Bold
deriving DecidableEq

/-- `enum FontStyle` (src/src/main.rs:323-328). -/
inductive FontStyle where
  | Normal
  | Italic
  | Oblique
deriving DecidableEq

/-- `struct FontProperties` (src/src/main.rs:330-335). -/
structure FontProperties where
  font_family : String
  font_weight : FontWeight
  font_style : FontStyle
deriving DecidableEq

/-- `impl Default for FontProperties` (src/src/main.rs:337-345). -/
def FontProperties.default : FontProperties :=
  ⟨"Arial Unicode MS", FontWeight.Normal, FontStyle.Normal⟩

/-- `struct FontSize(u32)` (src/src/main.rs:347-348). -/
abbrev FontSize := Nat

/-- `struct CachedFont` (src/src/main.rs:350-353): the pair of leaked
`&'static` handles produced for one `FontProperties` key.  `id` models the
pointer identity created by `Box::leak` on a cache miss; `props` records
which font data the handles refer to (the key they were loaded for). -/
structure CachedFont where
  id : Nat
  props : FontProperties
deriving DecidableEq

/-- `struct FontManager` (src/src/main.rs:355-358): the cache of loaded
fonts plus an allocation counter for fresh handles. -/
structure FontManager where
  next : Nat
  cache : List (FontProperties × CachedFont)
deriving DecidableEq

/-- `FontManager::new` (src/src/main.rs:361-366). -/
def FontManager.new : FontManager := ⟨0, []⟩

/-- Association-list lookup modelling `HashMap::get` on the font cache. -/
def lookupFont : List (FontProperties × CachedFont) → FontProperties → Option CachedFont
  | [], _ => none
  | (k, v) :: rest, key => if key = k then some v else lookupFont rest key

/-- `FontManager::get_fonts` (src/src/main.rs:368-420): on a hit the cached
handles are returned and the cache is unchanged; on a miss fresh handles are
leaked for the requested key and inserted. -/
def FontManager.get_fonts (fm : FontManager) (key : FontProperties) :
    CachedFont × FontManager :=
  match lookupFont fm.cache key with
  | some cf => (cf, fm)
  | none => (⟨fm.next, key⟩, ⟨fm.next + 1, (key, ⟨fm.next, key⟩) :: fm.cache⟩)

/-- One shaped glyph of a `GlyphBuffer`: glyph id plus the unscaled
advance/offset metrics that `rustybuzz` produces. -/
structure Glyph where
  glyph_id : Nat
  x_advance : Int
  x_offset : Int
  y_offset : Int
deriving DecidableEq

/-- The scaled font metrics the layout engine reads for one
`(FontProperties, FontSize)` pair (src/src/main.rs:486-494):
`scaleFactor = scale.x / font.height_unscaled()`,
`fontHeight = scaled_font.height()`, and
`spaceWidth = scaled_font.h_advance(glyph_id ' ')`. -/
structure FontMetrics where
  scaleFactor : ℚ
  fontHeight : ℚ
  spaceWidth : ℚ

/-- One element of the display list (src/src/main.rs:172): the tuple
`(GlyphBuffer, u32, u32, &'static FontRef, FontSize)` of shaped glyphs,
origin x, baseline y, font handle and font size. -/
structure Run where
  glyph_buffer : List Glyph
  origin_x : Nat
  baseline_y : Nat
  font : CachedFont
  size : FontSize
deriving DecidableEq

/-- `str::split_whitespace`: split into maximal runs of non-whitespace
characters, dropping all whitespace (src/src/main.rs:459). -/
def splitWords : List Char → List Char → List String
  | [], buf => if buf = [] then [] else [(⟨buf⟩ : String)]
  | c :: cs, buf =>
      if c.isWhitespace then
        (if buf = [] then splitWords cs [] else (⟨buf⟩ : String) :: splitWords cs [])
      else splitWords cs (buf ++ [c])

/-- The words of a text token, in order. -/
def wordsOf (s : String) : List String := splitWords s.data []

/-- `struct Layout` (src/src/main.rs:429-435). -/
structure Layout where
  cursor_x : Nat
  cursor_y : Nat
  window_width : Nat
  font_properties : FontProperties
  font_size : FontSize
deriving DecidableEq

/-- `Layout::new` (src/src/main.rs:437-446). -/
def Layout.new (window_width : Nat) : Layout :=
  ⟨HSTEP, VSTEP, window_width, FontProperties.default, 16⟩

section LayoutEngine

variable (metrics : FontProperties → FontSize → FontMetrics)
variable (shape : FontProperties → String → List Glyph)

/-- `word_width_in_px` (src/src/main.rs:499-504): the sum of the shaped
glyph advances, scaled by `scale_factor` and cast `as u32`. -/
def wordWidthPx (props : FontProperties) (size : FontSize) (w : String) : Nat :=
  px ((((shape props w).map Glyph.x_advance).sum : ℚ) * (metrics props size).scaleFactor)

/-- `Layout::word` (src/src/main.rs:478-519): if the word would overflow
the right margin (`cursor_x + word_width >= window_width - HSTEP`), reset
`cursor_x` to `HSTEP` and advance `cursor_y` by `(font_height * 1.2) as
u32`; then push exactly one run at the (possibly post-break) cursor and
advance `cursor_x` by `word_width + space_width as u32`. -/
def Layout.word (cf : CachedFont) (w : String) (st : Layout) (dl : List Run) :
    Layout × List Run :=
  let word_width_in_px := wordWidthPx metrics shape cf.props st.font_size w
  let line_height_px := px ((metrics cf.props st.font_size).fontHeight * (6 / 5))
  let space_width_px := px (metrics cf.props st.font_size).spaceWidth
  let st₁ :=
    if st.cursor_x + word_width_in_px ≥ st.window_width - HSTEP then
      { st with cursor_x := HSTEP, cursor_y := st.cursor_y + line_height_px }
    else st
  ({ st₁ with cursor_x := st₁.cursor_x + word_width_in_px + space_width_px },
   dl ++ [⟨shape cf.props w, st₁.cursor_x, st₁.cursor_y, cf, st₁.font_size⟩])

/-- The `for word in text.split_whitespace()` loop of `Layout::token`
(src/src/main.rs:458-461). -/
def Layout.wordFold (cf : CachedFont) : List String → Layout → List Run → Layout × List Run
  | [], st, dl => (st, dl)
  | w :: ws, st, dl =>
      Layout.wordFold cf ws (Layout.word metrics shape cf w st dl).1
        (Layout.word metrics shape cf w st dl).2

end LayoutEngine

/-- The tag `match` block of `Layout::token` (src/src/main.rs:463-471):
`"i"`/`"/i"` set the font style, `"b"`/`"/b"` set the font weight, every
other tag name leaves the style state unchanged. -/
def applyTag (tag : String) (st : Layout) : Layout :=
  if tag = "i" then
    { st with font_properties := { st.font_properties with font_style := FontStyle.Italic } }
  else if tag = "/i" then
    { st with font_properties := { st.font_properties with font_style := FontStyle.Normal } }
  else if tag = "b" then
    { st with font_properties := { st.font_properties with font_weight := FontWeight.Bold } }
  else if tag = "/b" then
    { st with font_properties := { st.font_properties with font_weight := FontWeight.Normal } }
  else st

section LayoutEngine2

variable (metrics : FontProperties → FontSize → FontMetrics)
variable (shape : FontProperties → String → List Glyph)

/-- `Layout::token` (src/src/main.rs:448-476): one pass over the tokens,
threading the layout state, the font manager and the display list.  The
fonts for the current style are fetched once per token, before the token is
examined (src/src/main.rs:456). -/
def Layout.token : Layout → List Token → FontManager → List Run →
    List Run × FontManager × Layout
  | st, [], fm, dl => (dl, fm, st)
  | st, Token.Text s :: rest, fm, dl =>
      Layout.token
        (Layout.wordFold metrics shape (FontManager.get_fonts fm st.font_properties).1
          (wordsOf s) st dl).1
        rest
        (FontManager.get_fonts fm st.font_properties).2
        (Layout.wordFold metrics shape (FontManager.get_fonts fm st.font_properties).1
          (wordsOf s) st dl).2
  | st, Token.Tag tag :: rest, fm, dl =>
      Layout.token (applyTag tag st) rest (FontManager.get_fonts fm st.font_properties).2 dl

/-- The pixel width of a run, recomputed from its stored glyph buffer, font
handle and size exactly as `Layout::word` computed it at placement time. -/
def runWidth (r : Run) : Nat :=
  px (((r.glyph_buffer.map Glyph.x_advance).sum : ℚ) * (metrics r.font.props r.size).scaleFactor)

end LayoutEngine2

/-- `struct Browser` (src/src/main.rs:169-176). -/
structure Browser where
  scroll : Nat
  tokens : List Token
  display_list : List Run
  font_manager : FontManager
  width : Nat
  height : Nat
deriving DecidableEq

/-- `Browser::new` (src/src/main.rs:179-188). -/
def Browser.new (width height : Nat) : Browser :=
  ⟨0, [], [], FontManager.new, width, height⟩

section BrowserOps

variable (metrics : FontProperties → FontSize → FontMetrics)
variable (shape : FontProperties → String → List Glyph)

/-- `Browser::load` (src/src/main.rs:190-201), with the transport layer
(which produced `body`) outside the core: lex the body, lay the tokens out
at the current width, store tokens, display list and the mutated font
manager.  The scroll field is not touched. -/
def Browser.load (b : Browser) (body : String) : Browser :=
  { b with
      tokens := Browser.lex body,
      display_list :=
        (Layout.token metrics shape (Layout.new b.width) (Browser.lex body) b.font_manager []).1,
      font_manager :=
        (Layout.token metrics shape (Layout.new b.width) (Browser.lex body) b.font_manager []).2.1 }

end BrowserOps

/-- `Browser::scrolldown` (src/src/main.rs:239-248): no-op on an empty
display list; otherwise `scroll = min(scroll + 20, last.baseline_y - height
+ VSTEP)` in `u32` arithmetic (the subtraction wraps in a release build and
panics in a debug build when `height > last.baseline_y`). -/
def Browser.scrolldown (b : Browser) : Browser :=
  match b.display_list.getLast? with
  | none => b
  | some r =>
      { b with scroll := min (u32add b.scroll 20) (u32add (u32sub r.baseline_y b.height) VSTEP) }

/-- `Browser::scrollup` (src/src/main.rs:250-252):
`scroll = max(0, scroll as i32 - 20) as u32`. -/
def Browser.scrollup (b : Browser) : Browser :=
  { b with scroll := (max 0 (toI32 b.scroll - 20)).toNat }

/-- `Browser::reset_scroll` (src/src/main.rs:230-237): re-clamp the scroll
against the last run of the display list.  The source indexes
`display_list[len - 1]` unconditionally, so an empty display list panics
(out-of-bounds index), modelled as `none`.  The final `max(0, scroll)` of
the source is kept even though it is a no-op on unsigned values. -/
def Browser.reset_scroll (b : Browser) : Option Browser :=
  match b.display_list.getLast? with
  | none => none
  | some r =>
      some { b with scroll := max 0 (min b.scroll (u32add (u32sub r.baseline_y b.height) VSTEP)) }

section BrowserOps2

variable (metrics : FontProperties → FontSize → FontMetrics)
variable (shape : FontProperties → String → List Glyph)

/-- `Browser::resize_browser` (src/src/main.rs:308-314): store the new
dimensions, re-lay-out the retained tokens at the new width, then re-clamp
the scroll via `reset_scroll` (which panics on an empty display list). -/
def Browser.resize_browser (b : Browser) (width height : Nat) : Option Browser :=
  Browser.reset_scroll
    { b with
        width := width,
        height := height,
        display_list :=
          (Layout.token metrics shape (Layout.new width) b.tokens b.font_manager []).1,
        font_manager :=
          (Layout.token metrics shape (Layout.new width) b.tokens b.font_manager []).2.1 }

end BrowserOps2

/-- One observable step of the glyph loop of `Browser::draw`
(src/src/main.rs:254-306): run `i` skipped glyph `j` via `continue`
(baseline above the window), stopped its glyph loop via `break` (baseline
below the window), or rasterized glyph `j`. -/
inductive GlyphEvent where
  | skipped : Nat → Nat → GlyphEvent
  | stopped : Nat → GlyphEvent
  | drawn : Nat → Nat → GlyphEvent
deriving DecidableEq

/-- The inner glyph loop of `Browser::draw` for run `i` with baseline
`baseline` (src/src/main.rs:262-304): per glyph, `continue` if
`baseline + VSTEP < scroll`, `break` if `baseline > scroll + height`,
otherwise rasterize. -/
def drawRunGlyphs (scroll height baseline i : Nat) : Nat → List Glyph → List GlyphEvent
  | _, [] => []
  | j, _ :: gs =>
      if baseline + VSTEP < scroll then
        GlyphEvent.skipped i j :: drawRunGlyphs scroll height baseline i (j + 1) gs
      else if baseline > scroll + height then
        [GlyphEvent.stopped i]
      else
        GlyphEvent.drawn i j :: drawRunGlyphs scroll height baseline i (j + 1) gs

/-- The outer run loop of `Browser::draw` (src/src/main.rs:256): every run
of the display list is visited in order; there is no break in this loop. -/
def drawTraceAux (scroll height : Nat) : Nat → List Run → List GlyphEvent
  | _, [] => []
  | i, r :: rs =>
      drawRunGlyphs scroll height r.baseline_y i 0 r.glyph_buffer ++
        drawTraceAux scroll height (i + 1) rs

/-- The control-flow trace of `Browser::draw` over a display list at a given
scroll offset and viewport height. -/
def drawTrace (scroll height : Nat) (runs : List Run) : List GlyphEvent :=
  drawTraceAux scroll height 0 runs

/-- Modelled from the spec: `max_scroll = max(0, last_run_baseline_y -
viewport_height + line_step)` (spec section 4.5), over the integers. -/
def max_scroll_spec (last_baseline_y viewport_height : Nat) : Int :=
  max 0 ((last_baseline_y : Int) - viewport_height + VSTEP)

/-- Concrete font metrics used by witnesses and counterexamples:
scale factor 1, scaled line height 10, space advance 1. -/
def metrics₀ : FontProperties → FontSize → FontMetrics := fun _ _ => ⟨1, 10, 1⟩

/-- Concrete shaping function used by witnesses and counterexamples: every
word shapes to a single glyph of unscaled advance 780. -/
def shape₀ : FontProperties → String → List Glyph := fun _ _ => [⟨0, 780, 0, 0⟩]

/-- Concrete run: the single run produced by laying out `[Text "x"]` at
width 800 under `metrics₀`/`shape₀` (the 780-pixel word breaks to a fresh
line at the left margin, baseline `40 + 12`). -/
def run₀ : Run := ⟨[⟨0, 780, 0, 0⟩], 40, 52, ⟨0, FontProperties.default⟩, 16⟩

/-- Concrete font-manager state after one layout pass from a cold cache:
one handle, allocated for the default font properties. -/
def fm₁ : FontManager := ⟨1, [(FontProperties.default, ⟨0, FontProperties.default⟩)]⟩

/-- Concrete layout state after laying out `[Text "x"]` at width 800 under
`metrics₀`/`shape₀`. -/
def layoutSt₁ : Layout := ⟨821, 52, 800, FontProperties.default, 16⟩

/-- Concrete run whose baseline (40) is far above the bottom of a 600-pixel
viewport: the single line of a short document. -/
def runShort : Run := ⟨[⟨0, 780, 0, 0⟩], 40, 40, ⟨0, FontProperties.default⟩, 16⟩

/-- Concrete run whose baseline (1000) lies below a 600-pixel viewport at
scroll offset 0. -/
def runLow : Run := ⟨[⟨0, 780, 0, 0⟩], 40, 1000, ⟨0, FontProperties.default⟩, 16⟩

/-- C1: the scroll clamp invariant `0 <= scroll_offset <= max_scroll` with
`max_scroll = max(0, last_run_baseline_y - viewport_height + line_step)` is
violated by the code when the content is shorter than the viewport: with a
single run at baseline 40 and viewport height 600, `max_scroll = max(0, 40 -
600 + 40) = 0`, but `Browser::scrolldown` computes `40 - 600 + 40` in `u32`,
which wraps (release build; a debug build panics on the underflow), so the
clamp is ineffective and one `scroll_down` moves the offset to 20 > 0. -/
theorem c1_scrolldown_exceeds_max_scroll :
    (Browser.scrolldown ⟨0, [], [runShort], FontManager.new, 800, 600⟩).scroll = 20 ∧
      max_scroll_spec runShort.baseline_y 600 = 0 := by
  constructor
  · rfl
  · decide

/-- C4 counterexample: the claim says that once a run with `baseline_y >
scroll_offset + viewport_height` is reached, all remaining runs are not
processed at all.  With two runs at baseline 1000, scroll 0 and height 600,
the first run satisfies that condition, yet the draw trace still contains an
event for the second run: the `break` of the source exits only the
per-run glyph loop, not the run loop. -/
theorem c4_no_early_exit_counterexample :
    runLow.baseline_y > 0 + 600 ∧
      GlyphEvent.stopped 1 ∈ drawTrace 0 600 [runLow, runLow] := by
  constructor
  · decide
  · decide

/-- C5 counterexample: the claim allows `origin_x + width > viewport_width`
only for a run whose width alone exceeds the viewport width.  Laying out the
single word `"x"` of pixel width 780 at viewport width 800 places it at the
left margin after a line break, giving `origin_x + width = 40 + 780 = 820 >
800` although its width 780 does not exceed the viewport width. -/
theorem c5_wide_word_counterexample :
    ((Layout.token metrics₀ shape₀ (Layout.new 800) [Token.Text "x"]
        FontManager.new []).1.map (fun r => (r.origin_x, runWidth metrics₀ r))) =
      [(40, 780)] ∧ 40 + 780 > 800 ∧ 780 ≤ 800 := by
  refine ⟨by with_unfolding_all decide, by decide, by decide⟩

/-- C8 counterexample: the claim says the scroll offset equals 0 after every
load, but `Browser::load` never touches `self.scroll`: loading a fresh
document into a browser scrolled to offset 20 leaves the offset at 20. -/
theorem c8_load_keeps_scroll_counterexample :
    (Browser.load metrics₀ shape₀ ⟨20, [], [], FontManager.new, 800, 600⟩ "hi").scroll ≠ 0 := by
  decide

/-- C2: for every word processed by `Layout::word`: if `cursor_x +
word_width >= window_width - HSTEP` a line break occurs before placing the
word (`cursor_x` resets to `HSTEP`, `cursor_y` advances by the truncated
`1.2 ×` scaled font height, the literal `1.2` modelled as `6 / 5`); the word
is then appended as exactly one run at the current cursor — never split —
and `cursor_x` advances by `word_width + space_advance`. -/
theorem c2_word_placement (metrics : FontProperties → FontSize → FontMetrics)
    (shape : FontProperties → String → List Glyph)
    (cf : CachedFont) (w : String) (st : Layout) (dl : List Run) :
    (Layout.word metrics shape cf w st dl).2 =
      dl ++ [⟨shape cf.props w,
        (if st.cursor_x + wordWidthPx metrics shape cf.props st.font_size w ≥
            st.window_width - HSTEP then HSTEP else st.cursor_x),
        (if st.cursor_x + wordWidthPx metrics shape cf.props st.font_size w ≥
            st.window_width - HSTEP then
          st.cursor_y + px ((metrics cf.props st.font_size).fontHeight * (6 / 5))
        else st.cursor_y),
        cf, st.font_size⟩] ∧
    (Layout.word metrics shape cf w st dl).1.cursor_x =
      (if st.cursor_x + wordWidthPx metrics shape cf.props st.font_size w ≥
          st.window_width - HSTEP then HSTEP else st.cursor_x) +
        wordWidthPx metrics shape cf.props st.font_size w +
        px (metrics cf.props st.font_size).spaceWidth ∧
    (Layout.word metrics shape cf w st dl).1.cursor_y =
      (if st.cursor_x + wordWidthPx metrics shape cf.props st.font_size w ≥
          st.window_width - HSTEP then
        st.cursor_y + px ((metrics cf.props st.font_size).fontHeight * (6 / 5))
      else st.cursor_y) := by
  simp only [Layout.word]
  split <;> simp

/-- C8 (amended): `Browser::load` never modifies the scroll offset, and a
freshly constructed browser starts with scroll offset 0 — so the program's
single initial load (performed right after `Browser::new`) completes with
scroll 0, but a load on an already-scrolled browser keeps its offset. -/
theorem c8_load_preserves_scroll (metrics : FontProperties → FontSize → FontMetrics)
    (shape : FontProperties → String → List Glyph)
    (b : Browser) (body : String) (width height : Nat) :
    (Browser.load metrics shape b body).scroll = b.scroll ∧
      (Browser.new width height).scroll = 0 :=
  ⟨rfl, rfl⟩

/-- C9: resizing a browser whose retained tokens lay out to an empty display
list (for example after loading a document with no words) does not complete
normally: `reset_scroll` indexes `display_list[len - 1]` unconditionally, so
`resize_browser` panics (modelled as `none`) instead of re-clamping. -/
theorem c9_resize_empty_display_list_panics
    (metrics : FontProperties → FontSize → FontMetrics)
    (shape : FontProperties → String → List Glyph)
    (b : Browser) (width height : Nat)
    (h : (Layout.token metrics shape (Layout.new width) b.tokens b.font_manager []).1 = []) :
    Browser.resize_browser metrics shape b width height = none := by
  simp [Browser.resize_browser, Browser.reset_scroll, h]

/-- C9 witness: resizing a freshly constructed browser (no tokens, empty
display list) panics. -/
theorem c9_witness :
    Browser.resize_browser metrics₀ shape₀ (Browser.new 800 600) 400 300 = none :=
  c9_resize_empty_display_list_panics metrics₀ shape₀ (Browser.new 800 600) 400 300 rfl

theorem textContent_append (a b : List Token) :
    textContent (a ++ b) = textContent a ++ textContent b := by
  induction a with
  | nil => rfl
  | cons t ts ih => cases t <;> simp [textContent, ih]

theorem lexAux_lt (cs buf : List Char) (t : Bool) :
    lexAux ('<' :: cs) buf t =
      (if buf ≠ [] then [Token.Text ⟨buf⟩] else []) ++ lexAux cs [] true := by
  simp [lexAux]

theorem lexAux_gt (cs buf : List Char) (t : Bool) :
    lexAux ('>' :: cs) buf t = Token.Tag ⟨buf⟩ :: lexAux cs [] false := by
  simp [lexAux]

theorem lexAux_other (c : Char) (cs buf : List Char) (t : Bool)
    (h1 : c ≠ '<') (h2 : c ≠ '>') :
    lexAux (c :: cs) buf t = lexAux cs (buf ++ [c]) t := by
  simp [lexAux, h1, h2]

theorem stripAux_lt (cs : List Char) (t : Bool) :
    stripAux ('<' :: cs) t = stripAux cs true := by
  simp [stripAux]

theorem stripAux_gt (cs : List Char) (t : Bool) :
    stripAux ('>' :: cs) t = stripAux cs false := by
  simp [stripAux]

theorem stripAux_other (c : Char) (cs : List Char) (t : Bool)
    (h1 : c ≠ '<') (h2 : c ≠ '>') :
    stripAux (c :: cs) t = if t then stripAux cs t else c :: stripAux cs t := by
  cases t <;> simp [stripAux, h1, h2]

/-- Scanning a stretch of ordinary characters only grows the buffer. -/
theorem lexAux_plain (p : List Char) :
    ∀ (buf : List Char) (t : Bool), (∀ c ∈ p, c ≠ '<' ∧ c ≠ '>') →
      ∀ cs, lexAux (p ++ cs) buf t = lexAux cs (buf ++ p) t := by
  induction p with
  | nil => intro buf t _ cs; simp
  | cons c p ih =>
      intro buf t hp cs
      obtain ⟨h1, h2⟩ := hp c (List.mem_cons_self _ _)
      simp only [List.cons_append, lexAux, if_neg h1, if_neg h2, List.append_eq]
      rw [ih (buf ++ [c]) t (fun d hd => hp d (List.mem_cons_of_mem _ hd)) cs]
      simp

/-- Invariant of the tokenizer scan on balanced input: the text content of
the produced tokens is the pending buffer (dropped inside a tag) followed by
the tag-stripped remainder. -/
theorem lexAux_strip (cs : List Char) :
    ∀ (buf : List Char) (t : Bool), balancedAux cs t = true →
      textContent (lexAux cs buf t) = (if t then [] else buf) ++ stripAux cs t := by
  induction cs with
  | nil =>
      intro buf t hb
      cases t with
      | false => by_cases hbuf : buf = [] <;> simp [lexAux, stripAux, textContent, hbuf]
      | true => simp [balancedAux] at hb
  | cons c cs ih =>
      intro buf t hb
      by_cases h1 : c = '<'
      · subst h1
        cases t with
        | true => simp [balancedAux] at hb
        | false =>
            have hbal : balancedAux cs true = true := by simpa [balancedAux] using hb
            rw [lexAux_lt, stripAux_lt, textContent_append, ih [] true hbal]
            by_cases hbuf : buf = [] <;> simp [hbuf, textContent]
      · by_cases h2 : c = '>'
        · subst h2
          cases t with
          | false => simp [balancedAux, h1] at hb
          | true =>
              have hbal : balancedAux cs false = true := by simpa [balancedAux, h1] using hb
              rw [lexAux_gt, stripAux_gt]
              show textContent (lexAux cs [] false) = _
              rw [ih [] false hbal]
              simp
        · have hb2 : balancedAux cs t = true := by simpa [balancedAux, h1, h2] using hb
          rw [lexAux_other c cs buf t h1 h2, stripAux_other c cs t h1 h2,
            ih (buf ++ [c]) t hb2]
          cases t <;> simp

/-- C3: for every markup string with balanced tag brackets, the
concatenation of the content of all `Text` tokens produced by
`Browser::lex` equals the input with every tag span removed. -/
theorem c3_lex_round_trip (s : String) (hs : balanced s = true) :
    (⟨textContent (Browser.lex s)⟩ : String) = stripTags s := by
  unfold Browser.lex stripTags
  exact congrArg String.mk (by simpa using lexAux_strip s.data [] false hs)

/-- C3 witness at the spec's own example markup. -/
theorem c3_witness :
    balanced "<b>Hi</b> there" = true ∧
      (⟨textContent (Browser.lex "<b>Hi</b> there")⟩ : String) =
        stripTags "<b>Hi</b> there" :=
  ⟨by decide, c3_lex_round_trip "<b>Hi</b> there" (by decide)⟩

/-- C10: a `>` encountered while not inside a tag makes the tokenizer emit
the text accumulated so far as a `Tag` token, so that text is absent from
the concatenation of `Text` token contents; likewise the empty pair `<>`
emits `Tag("")`. -/
theorem c10_stray_gt_emits_tag (p rest : List Char)
    (hp : ∀ c ∈ p, c ≠ '<' ∧ c ≠ '>') :
    Browser.lex ⟨p ++ '>' :: rest⟩ = Token.Tag ⟨p⟩ :: lexAux rest [] false ∧
      textContent (Browser.lex ⟨p ++ '>' :: rest⟩) = textContent (lexAux rest [] false) ∧
      Browser.lex "<>" = [Token.Tag ""] := by
  have key : Browser.lex ⟨p ++ '>' :: rest⟩ = Token.Tag ⟨p⟩ :: lexAux rest [] false := by
    show lexAux (p ++ '>' :: rest) [] false = _
    rw [lexAux_plain p [] false hp ('>' :: rest), lexAux_gt]
    simp
  exact ⟨key, by rw [key]; rfl, by decide⟩

/-- C10 witness: the input `ab>cd` yields `Tag("ab")` followed by the
tokens of `cd`, and the text `ab` does not reach any `Text` token. -/
theorem c10_witness :
    Browser.lex ⟨['a', 'b'] ++ '>' :: ['c', 'd']⟩ =
        Token.Tag ⟨['a', 'b']⟩ :: lexAux ['c', 'd'] [] false ∧
      textContent (Browser.lex ⟨['a', 'b'] ++ '>' :: ['c', 'd']⟩) =
        textContent (lexAux ['c', 'd'] [] false) ∧
      Browser.lex "<>" = [Token.Tag ""] :=
  c10_stray_gt_emits_tag ['a', 'b'] ['c', 'd'] (by decide)

theorem drawRunGlyphs_drawn (scroll height y i : Nat) :
    ∀ (gs : List Glyph) (j a b : Nat),
      GlyphEvent.drawn a b ∈ drawRunGlyphs scroll height y i j gs →
      a = i ∧ ¬ (y + VSTEP < scroll) ∧ ¬ (y > scroll + height) := by
  intro gs
  induction gs with
  | nil => intro j a b h; simp [drawRunGlyphs] at h
  | cons g gs ih =>
      intro j a b h
      by_cases h1 : y + VSTEP < scroll
      · simp only [drawRunGlyphs, if_pos h1] at h
        rcases List.mem_cons.mp h with h | h
        · exact absurd h (by simp)
        · exact ih (j + 1) a b h
      · by_cases h2 : y > scroll + height
        · simp only [drawRunGlyphs, if_neg h1, if_pos h2] at h
          simp at h
        · simp only [drawRunGlyphs, if_neg h1, if_neg h2] at h
          rcases List.mem_cons.mp h with h | h
          · injection h with ha hb
            exact ⟨ha, h1, h2⟩
          · exact ih (j + 1) a b h

theorem drawRunGlyphs_stopped (scroll height y i : Nat) (g : Glyph) (gs : List Glyph)
    (j : Nat) (h1 : ¬ (y + VSTEP < scroll)) (h2 : y > scroll + height) :
    drawRunGlyphs scroll height y i j (g :: gs) = [GlyphEvent.stopped i] := by
  simp only [drawRunGlyphs, if_neg h1, if_pos h2]

theorem drawTraceAux_drawn (scroll height : Nat) :
    ∀ (runs : List Run) (n a b : Nat),
      GlyphEvent.drawn a b ∈ drawTraceAux scroll height n runs →
      ∃ r, runs.get? (a - n) = some r ∧ n ≤ a ∧
        ¬ (r.baseline_y + VSTEP < scroll) ∧ ¬ (r.baseline_y > scroll + height) := by
  intro runs
  induction runs with
  | nil => intro n a b h; simp [drawTraceAux] at h
  | cons r rs ih =>
      intro n a b h
      simp only [drawTraceAux] at h
      rcases List.mem_append.mp h with h | h
      · obtain ⟨ha, hv1, hv2⟩ := drawRunGlyphs_drawn scroll height r.baseline_y n _ 0 a b h
        exact ⟨r, by simp [ha, Nat.sub_self], by omega, hv1, hv2⟩
      · obtain ⟨r', hr', hn, hv1, hv2⟩ := ih (n + 1) a b h
        refine ⟨r', ?_, by omega, hv1, hv2⟩
        have hsub : a - n = (a - (n + 1)) + 1 := by omega
        rw [hsub]
        simpa using hr'

theorem drawTraceAux_stopped (scroll height : Nat) :
    ∀ (runs : List Run) (n j : Nat) (r : Run),
      runs.get? j = some r → r.baseline_y > scroll + height → r.glyph_buffer ≠ [] →
      GlyphEvent.stopped (n + j) ∈ drawTraceAux scroll height n runs := by
  intro runs
  induction runs with
  | nil => intro n j r h; simp at h
  | cons r0 rs ih =>
      intro n j r hget hy hgb
      cases j with
      | zero =>
          simp only [List.get?_cons_zero, Option.some.injEq] at hget
          subst hget
          simp only [drawTraceAux]
          apply List.mem_append.mpr
          left
          have h1 : ¬ (r0.baseline_y + VSTEP < scroll) := by
            show ¬ (r0.baseline_y + 40 < scroll)
            omega
          cases hgb' : r0.glyph_buffer with
          | nil => exact absurd hgb' hgb
          | cons g gs =>
              rw [drawRunGlyphs_stopped scroll height r0.baseline_y n g gs 0 h1 hy]
              simp
      | succ j =>
          simp only [List.get?_cons_succ] at hget
          have hmem := ih (n + 1) j r hget hy hgb
          simp only [drawTraceAux]
          apply List.mem_append.mpr
          right
          have hn : n + (j + 1) = (n + 1) + j := by omega
          rw [hn]
          exact hmem

/-- C4 (amended): the renderer culls per run, not by exiting the run loop:
a `drawn` event can only come from a run that is neither above the window
(`baseline_y + VSTEP < scroll`) nor below it (`baseline_y > scroll +
height`); and every run below the window — even one following another run
that is already below the window — is still visited by the outer loop, its
glyph loop stopping at its first glyph with a `break`. -/
theorem c4_draw_culling_per_run (scroll height : Nat) (runs : List Run) :
    (∀ a b, GlyphEvent.drawn a b ∈ drawTrace scroll height runs →
      ∃ r, runs.get? a = some r ∧ ¬ (r.baseline_y + VSTEP < scroll) ∧
        ¬ (r.baseline_y > scroll + height)) ∧
    (∀ j r, runs.get? j = some r → r.baseline_y > scroll + height →
      r.glyph_buffer ≠ [] → GlyphEvent.stopped j ∈ drawTrace scroll height runs) := by
  constructor
  · intro a b h
    obtain ⟨r, hr, _, hv1, hv2⟩ := drawTraceAux_drawn scroll height runs 0 a b h
    exact ⟨r, by simpa using hr, hv1, hv2⟩
  · intro j r hget hy hgb
    have hmem := drawTraceAux_stopped scroll height runs 0 j r hget hy hgb
    simpa using hmem

/-- C4 witness: a below-viewport run is visited and stops its glyph loop. -/
theorem c4_witness :
    GlyphEvent.stopped 0 ∈ drawTrace 0 600 [runLow] :=
  (c4_draw_culling_per_run 0 600 [runLow]).2 0 runLow rfl (by decide) (by decide)

theorem word_window_width (metrics : FontProperties → FontSize → FontMetrics)
    (shape : FontProperties → String → List Glyph)
    (cf : CachedFont) (w : String) (st : Layout) (dl : List Run) :
    ((Layout.word metrics shape cf w st dl).1).window_width = st.window_width := by
  simp only [Layout.word]
  split <;> rfl

theorem applyTag_window_width (tag : String) (st : Layout) :
    (applyTag tag st).window_width = st.window_width := by
  unfold applyTag
  repeat' split
  all_goals rfl

/-- Every run appended by `Layout::word` either fits strictly inside the
right margin or sits at the left margin because even there it would cross
the margin. -/
theorem word_run_invariant (metrics : FontProperties → FontSize → FontMetrics)
    (shape : FontProperties → String → List Glyph)
    (cf : CachedFont) (w : String) (st : Layout) (dl : List Run)
    (r : Run) (hr : r ∈ (Layout.word metrics shape cf w st dl).2) :
    r ∈ dl ∨
      r.origin_x + runWidth metrics r < st.window_width - HSTEP ∨
      (r.origin_x = HSTEP ∧ st.window_width - HSTEP ≤ HSTEP + runWidth metrics r) := by
  by_cases hcond : st.cursor_x + wordWidthPx metrics shape cf.props st.font_size w ≥
      st.window_width - HSTEP
  · simp only [Layout.word, if_pos hcond, List.mem_append, List.mem_singleton] at hr
    rcases hr with hr | hr
    · exact Or.inl hr
    · subst hr
      right
      rcases Nat.lt_or_ge
          (HSTEP + wordWidthPx metrics shape cf.props st.font_size w)
          (st.window_width - HSTEP) with hlt | hge
      · exact Or.inl hlt
      · exact Or.inr ⟨rfl, hge⟩
  · simp only [Layout.word, if_neg hcond, List.mem_append, List.mem_singleton] at hr
    rcases hr with hr | hr
    · exact Or.inl hr
    · subst hr
      exact Or.inr (Or.inl (Nat.lt_of_not_le hcond))

theorem wordFold_window_width (metrics : FontProperties → FontSize → FontMetrics)
    (shape : FontProperties → String → List Glyph) (cf : CachedFont) :
    ∀ (ws : List String) (st : Layout) (dl : List Run),
      ((Layout.wordFold metrics shape cf ws st dl).1).window_width = st.window_width := by
  intro ws
  induction ws with
  | nil => intro st dl; rfl
  | cons w ws ih =>
      intro st dl
      simp only [Layout.wordFold]
      rw [ih, word_window_width]

theorem wordFold_run_invariant (metrics : FontProperties → FontSize → FontMetrics)
    (shape : FontProperties → String → List Glyph) (cf : CachedFont) (W : Nat) :
    ∀ (ws : List String) (st : Layout) (dl : List Run), st.window_width = W →
      (∀ r ∈ dl, r.origin_x + runWidth metrics r < W - HSTEP ∨
        (r.origin_x = HSTEP ∧ W - HSTEP ≤ HSTEP + runWidth metrics r)) →
      ∀ r ∈ (Layout.wordFold metrics shape cf ws st dl).2,
        r.origin_x + runWidth metrics r < W - HSTEP ∨
        (r.origin_x = HSTEP ∧ W - HSTEP ≤ HSTEP + runWidth metrics r) := by
  intro ws
  induction ws with
  | nil => intro st dl hW hdl; exact hdl
  | cons w ws ih =>
      intro st dl hW hdl
      simp only [Layout.wordFold]
      apply ih _ _ (by rw [word_window_width, hW])
      intro r hr
      rcases word_run_invariant metrics shape cf w st dl r hr with h | h | h
      · exact hdl r h
      · rw [hW] at h; exact Or.inl h
      · rw [hW] at h; exact Or.inr h

theorem token_run_invariant (metrics : FontProperties → FontSize → FontMetrics)
    (shape : FontProperties → String → List Glyph) (W : Nat) :
    ∀ (ts : List Token) (st : Layout) (fm : FontManager) (dl : List Run),
      st.window_width = W →
      (∀ r ∈ dl, r.origin_x + runWidth metrics r < W - HSTEP ∨
        (r.origin_x = HSTEP ∧ W - HSTEP ≤ HSTEP + runWidth metrics r)) →
      ∀ r ∈ (Layout.token metrics shape st ts fm dl).1,
        r.origin_x + runWidth metrics r < W - HSTEP ∨
        (r.origin_x = HSTEP ∧ W - HSTEP ≤ HSTEP + runWidth metrics r) := by
  intro ts
  induction ts with
  | nil => intro st fm dl hW hdl; exact hdl
  | cons t rest ih =>
      intro st fm dl hW hdl
      cases t with
      | Text s =>
          simp only [Layout.token]
          apply ih _ _ _ (by rw [wordFold_window_width, hW])
          exact wordFold_run_invariant metrics shape _ W (wordsOf s) st dl hW hdl
      | Tag tag =>
          simp only [Layout.token]
          apply ih _ _ _ (by rw [applyTag_window_width, hW])
          exact hdl

/-- C5 (amended): every run of a layout output satisfies `origin_x + width <
viewport_width - HSTEP`, except runs placed at the left margin (`origin_x =
HSTEP`) whose width reaches the right margin even from there
(`HSTEP + width >= viewport_width - HSTEP`); such a run may exceed the
viewport width even when its bare width does not.  Words are never
force-broken. -/
theorem c5_line_wrap_invariant (metrics : FontProperties → FontSize → FontMetrics)
    (shape : FontProperties → String → List Glyph) (W : Nat) (ts : List Token) (r : Run)
    (hr : r ∈ (Layout.token metrics shape (Layout.new W) ts FontManager.new []).1) :
    r.origin_x + runWidth metrics r < W - HSTEP ∨
      (r.origin_x = HSTEP ∧ W - HSTEP ≤ HSTEP + runWidth metrics r) :=
  token_run_invariant metrics shape W ts (Layout.new W) FontManager.new [] rfl
    (by simp) r hr

/-- C5 witness: the 780-pixel word laid out at width 800 falls under the
left-margin exception of the invariant. -/
theorem c5_witness :
    run₀.origin_x + runWidth metrics₀ run₀ < 800 - HSTEP ∨
      (run₀.origin_x = HSTEP ∧ 800 - HSTEP ≤ HSTEP + runWidth metrics₀ run₀) :=
  c5_line_wrap_invariant metrics₀ shape₀ 800 [Token.Text "x"] run₀
    (by with_unfolding_all decide)

/-- After `get_fonts`, the requested key is cached with the returned handles. -/
theorem get_fonts_lookup (fm : FontManager) (k : FontProperties) :
    lookupFont ((FontManager.get_fonts fm k).2).cache k =
      some (FontManager.get_fonts fm k).1 := by
  unfold FontManager.get_fonts
  cases h : lookupFont fm.cache k with
  | some cf => simp [h]
  | none => simp [lookupFont]

/-- A cache hit returns the cached handles and leaves the manager unchanged. -/
theorem lookup_get_fonts (fm : FontManager) (k : FontProperties) (cf : CachedFont)
    (h : lookupFont fm.cache k = some cf) :
    FontManager.get_fonts fm k = (cf, fm) := by
  unfold FontManager.get_fonts
  rw [h]

/-- `get_fonts` never drops or changes an existing cache entry. -/
theorem get_fonts_mono (fm : FontManager) (k k' : FontProperties) (cf : CachedFont)
    (h : lookupFont fm.cache k = some cf) :
    lookupFont ((FontManager.get_fonts fm k').2).cache k = some cf := by
  unfold FontManager.get_fonts
  cases h2 : lookupFont fm.cache k' with
  | some cf2 => exact h
  | none =>
      show lookupFont ((k', ⟨fm.next, k'⟩) :: fm.cache) k = some cf
      simp only [lookupFont]
      by_cases hk : k = k'
      · subst hk
        rw [h2] at h
        exact absurd h (by simp)
      · rw [if_neg hk]
        exact h

/-- A whole layout pass never drops or changes an existing cache entry. -/
theorem token_cache_mono (metrics : FontProperties → FontSize → FontMetrics)
    (shape : FontProperties → String → List Glyph) :
    ∀ (ts : List Token) (st : Layout) (fm : FontManager) (dl : List Run)
      (k : FontProperties) (cf : CachedFont),
      lookupFont fm.cache k = some cf →
      lookupFont ((Layout.token metrics shape st ts fm dl).2.1).cache k = some cf := by
  intro ts
  induction ts with
  | nil => intro st fm dl k cf h; exact h
  | cons t rest ih =>
      intro st fm dl k cf h
      cases t with
      | Text s =>
          simp only [Layout.token]
          exact ih _ _ _ k cf (get_fonts_mono fm k st.font_properties cf h)
      | Tag tag =>
          simp only [Layout.token]
          exact ih _ _ _ k cf (get_fonts_mono fm k st.font_properties cf h)

/-- C6: layout is deterministic given the cache contents: replaying
`Layout::token` over the same token sequence, from the same layout state
(hence the same viewport width) and from the warm font-manager state the
first pass produced, yields the identical display list, font-manager state
and final layout state — every lookup now hits and returns exactly the
handles the first pass used. -/
theorem c6_layout_deterministic_warm (metrics : FontProperties → FontSize → FontMetrics)
    (shape : FontProperties → String → List Glyph) :
    ∀ (ts : List Token) (st : Layout) (fm : FontManager) (dl dl' : List Run)
      (fm' : FontManager) (st' : Layout),
      Layout.token metrics shape st ts fm dl = (dl', fm', st') →
      Layout.token metrics shape st ts fm' dl = (dl', fm', st') := by
  intro ts
  induction ts with
  | nil =>
      intro st fm dl dl' fm' st' h
      have h1 : dl = dl' := congrArg (fun p => p.1) h
      have h2 : fm = fm' := congrArg (fun p => p.2.1) h
      have h3 : st = st' := congrArg (fun p => p.2.2) h
      subst h1
      subst h2
      subst h3
      rfl
  | cons t rest ih =>
      intro st fm dl dl' fm' st' h
      cases t with
      | Text s =>
          simp only [Layout.token] at h ⊢
          have hcf := get_fonts_lookup fm st.font_properties
          have hmono := token_cache_mono metrics shape rest
            (Layout.wordFold metrics shape (FontManager.get_fonts fm st.font_properties).1
              (wordsOf s) st dl).1
            (FontManager.get_fonts fm st.font_properties).2
            (Layout.wordFold metrics shape (FontManager.get_fonts fm st.font_properties).1
              (wordsOf s) st dl).2
            st.font_properties (FontManager.get_fonts fm st.font_properties).1 hcf
          rw [h] at hmono
          have hget' := lookup_get_fonts fm' st.font_properties
            (FontManager.get_fonts fm st.font_properties).1 hmono
          rw [hget']
          exact ih _ _ _ _ _ _ h
      | Tag tag =>
          simp only [Layout.token] at h ⊢
          have hcf := get_fonts_lookup fm st.font_properties
          have hmono := token_cache_mono metrics shape rest (applyTag tag st)
            (FontManager.get_fonts fm st.font_properties).2 dl
            st.font_properties (FontManager.get_fonts fm st.font_properties).1 hcf
          rw [h] at hmono
          have hget' := lookup_get_fonts fm' st.font_properties
            (FontManager.get_fonts fm st.font_properties).1 hmono
          rw [hget']
          exact ih _ _ _ _ _ _ h

/-- C6 witness: re-running the layout of `[Text "x"]` at width 800 from the
warmed cache reproduces the identical display list and cache. -/
theorem c6_witness :
    Layout.token metrics₀ shape₀ (Layout.new 800) [Token.Text "x"] fm₁ [] =
      ([run₀], fm₁, layoutSt₁) :=
  c6_layout_deterministic_warm metrics₀ shape₀ [Token.Text "x"] (Layout.new 800)
    FontManager.new [] [run₀] fm₁ layoutSt₁ (by with_unfolding_all decide)

theorem word_font_properties (metrics : FontProperties → FontSize → FontMetrics)
    (shape : FontProperties → String → List Glyph)
    (cf : CachedFont) (w : String) (st : Layout) (dl : List Run) :
    ((Layout.word metrics shape cf w st dl).1).font_properties = st.font_properties := by
  simp only [Layout.word]
  split <;> rfl

/-- Every run appended by `Layout::word` carries the font handle it was
called with. -/
theorem word_fonts (metrics : FontProperties → FontSize → FontMetrics)
    (shape : FontProperties → String → List Glyph)
    (cf : CachedFont) (w : String) (st : Layout) (dl : List Run) :
    ((Layout.word metrics shape cf w st dl).2).map (fun r => r.font) =
      dl.map (fun r => r.font) ++ [cf] := by
  simp only [Layout.word]
  split <;> simp

theorem wordFold_font_properties (metrics : FontProperties → FontSize → FontMetrics)
    (shape : FontProperties → String → List Glyph) (cf : CachedFont) :
    ∀ (ws : List String) (st : Layout) (dl : List Run),
      ((Layout.wordFold metrics shape cf ws st dl).1).font_properties = st.font_properties := by
  intro ws
  induction ws with
  | nil => intro st dl; rfl
  | cons w ws ih =>
      intro st dl
      simp only [Layout.wordFold]
      rw [ih, word_font_properties]

theorem wordFold_fonts (metrics : FontProperties → FontSize → FontMetrics)
    (shape : FontProperties → String → List Glyph) (cf : CachedFont) :
    ∀ (ws : List String) (st : Layout) (dl : List Run),
      ((Layout.wordFold metrics shape cf ws st dl).2).map (fun r => r.font) =
        dl.map (fun r => r.font) ++ ws.map (fun _ => cf) := by
  intro ws
  induction ws with
  | nil => intro st dl; simp [Layout.wordFold]
  | cons w ws ih =>
      intro st dl
      simp only [Layout.wordFold]
      rw [ih, word_fonts]
      simp

/-- The bold variant of the default font properties. -/
def boldProps : FontProperties := ⟨"Arial Unicode MS", FontWeight.Bold, FontStyle.Normal⟩

/-- The second handle allocated during the `C7` trace: the bold font. -/
def cfBold : CachedFont := ⟨1, boldProps⟩

/-- The first handle allocated during the `C7` trace: the default font. -/
def cfDefault : CachedFont := ⟨0, FontProperties.default⟩

/-- The font-manager state after fetching the default and the bold font. -/
def fmWarm2 : FontManager :=
  ⟨2, [(boldProps, cfBold), (FontProperties.default, cfDefault)]⟩

/-- C7: during layout, `Tag("i")` sets the font style to Italic, `Tag("/i")`
resets it, `Tag("b")` sets the font weight to Bold, `Tag("/b")` resets it,
and every other tag name leaves the style state unchanged; consequently the
token sequence `Tag("b"), Text("x"), Tag("/b"), Text("y")` yields exactly
two runs, of which only the first carries a bold font key. -/
theorem c7_style_tag_semantics (metrics : FontProperties → FontSize → FontMetrics)
    (shape : FontProperties → String → List Glyph) (W : Nat) (st : Layout) :
    applyTag "i" st =
      { st with font_properties := { st.font_properties with font_style := FontStyle.Italic } } ∧
    applyTag "/i" st =
      { st with font_properties := { st.font_properties with font_style := FontStyle.Normal } } ∧
    applyTag "b" st =
      { st with font_properties := { st.font_properties with font_weight := FontWeight.Bold } } ∧
    applyTag "/b" st =
      { st with font_properties := { st.font_properties with font_weight := FontWeight.Normal } } ∧
    (∀ tag : String, tag ≠ "i" → tag ≠ "/i" → tag ≠ "b" → tag ≠ "/b" →
      applyTag tag st = st) ∧
    ((Layout.token metrics shape (Layout.new W)
        [Token.Tag "b", Token.Text "x", Token.Tag "/b", Token.Text "y"]
        FontManager.new []).1.map (fun r => r.font.props.font_weight) =
      [FontWeight.Bold, FontWeight.Normal]) ∧
    (Layout.token metrics shape (Layout.new W)
        [Token.Tag "b", Token.Text "x", Token.Tag "/b", Token.Text "y"]
        FontManager.new []).1.length = 2 := by
  have hstep : ∀ (st2 : Layout) (dl2 : List Run), st2.font_properties = boldProps →
      (Layout.token metrics shape st2 [Token.Tag "/b", Token.Text "y"] fmWarm2 dl2).1.map
          (fun r => r.font) =
        dl2.map (fun r => r.font) ++ [cfDefault] := by
    intro st2 dl2 hst2
    have h4 : (applyTag "/b" st2).font_properties = FontProperties.default := by
      unfold applyTag
      rw [if_neg (by decide : ("/b" : String) ≠ "i"),
        if_neg (by decide : ("/b" : String) ≠ "/i"),
        if_neg (by decide : ("/b" : String) ≠ "b"), if_pos rfl]
      rw [show ({ st2 with font_properties :=
          { st2.font_properties with font_weight := FontWeight.Normal } } : Layout).font_properties =
        { st2.font_properties with font_weight := FontWeight.Normal } from rfl]
      rw [hst2]
      rfl
    simp only [Layout.token]
    rw [hst2, h4]
    rw [show FontManager.get_fonts fmWarm2 boldProps = (cfBold, fmWarm2) from rfl]
    rw [show FontManager.get_fonts fmWarm2 FontProperties.default = (cfDefault, fmWarm2) from rfl]
    rw [wordFold_fonts]
    rfl
  have hfonts : (Layout.token metrics shape (Layout.new W)
      [Token.Tag "b", Token.Text "x", Token.Tag "/b", Token.Text "y"]
      FontManager.new []).1.map (fun r => r.font) = [cfBold, cfDefault] := by
    rw [show Layout.token metrics shape (Layout.new W)
        [Token.Tag "b", Token.Text "x", Token.Tag "/b", Token.Text "y"] FontManager.new [] =
      Layout.token metrics shape
        (Layout.wordFold metrics shape cfBold (wordsOf "x") (applyTag "b" (Layout.new W)) []).1
        [Token.Tag "/b", Token.Text "y"] fmWarm2
        (Layout.wordFold metrics shape cfBold (wordsOf "x") (applyTag "b" (Layout.new W)) []).2
      from rfl]
    rw [hstep _ _ (by rw [wordFold_font_properties]; rfl)]
    rw [wordFold_fonts]
    rfl
  refine ⟨rfl, rfl, rfl, rfl, ?_, ?_, ?_⟩
  · intro tag h1 h2 h3 h4
    unfold applyTag
    rw [if_neg h1, if_neg h2, if_neg h3, if_neg h4]
  · have hmm := congrArg (List.map (fun cf : CachedFont => cf.props.font_weight)) hfonts
    rw [List.map_map] at hmm
    exact hmm
  · have hl := congrArg List.length hfonts
    simp only [List.length_map] at hl
    exact hl

/-- C7 witness: an unrecognized tag name leaves the layout state unchanged. -/
theorem c7_witness : applyTag "p" (Layout.new 800) = Layout.new 800 :=
  (c7_style_tag_semantics metrics₀ shape₀ 800 (Layout.new 800)).2.2.2.2.1 "p"
    (by decide) (by decide) (by decide) (by decide)

end RustBrowser
